import Mathlib

/-!
# Verification of the TagOnce translation-rules dashboard core

Shallow embedding of `src/dashboard.py`: the data normalization performed by
`load_data`, the primary/secondary filtering performed in `main`, and the
rule-grouping performed by `display_merged_rules`.

Cells are strings (the CSV is read with `keep_default_na=False`, and every
input/output column is coerced with `astype(str)`, so empty cells are empty
strings and no null values occur).  A row is modelled positionally: the list
of its cell values in header order.  Python string comparison is code-point
lexicographic; tuple comparison (used by pandas when sorting group keys) is
componentwise lexicographic.  Both orders are defined below as executable
Boolean relations.
-/

namespace Dashboard

/-- A row of the table: its cell values, aligned with the header columns. -/
abbrev Row := List String

/-- The whitespace characters removed by Python's `str.strip()`
(space, tab, newline, carriage return, vertical tab, form feed). -/
def isSpaceChar (c : Char) : Bool :=
  c = ' ' || c = '\t' || c = '\n' || c = '\r' || c.toNat = 11 || c.toNat = 12

/-- Model of `str.strip()` on a character list: drop leading and trailing whitespace. -/
def trimChars (l : List Char) : List Char :=
  ((l.dropWhile isSpaceChar).reverse.dropWhile isSpaceChar).reverse

/-- Model of `str.strip()` on a string. -/
def trimStr (s : String) : String := ⟨trimChars s.data⟩

/-- Model of `str.replace('~', 'NOT', regex=False)` at the character level: every
occurrence of the character `~` is rewritten to the three characters `NOT`. -/
def replaceTilde : List Char → List Char
  | [] => []
  | c :: cs =>
      if c = '~' then 'N' :: 'O' :: 'T' :: replaceTilde cs
      else c :: replaceTilde cs

/-- Model of `str.replace('~', 'NOT', regex=False)` on a string. -/
def replaceTildeStr (s : String) : String := ⟨replaceTilde s.data⟩

/-- Python's `<=` on strings, at the character-list level: code-point
lexicographic order. -/
def lexLe : List Char → List Char → Bool
  | [], _ => true
  | _ :: _, [] => false
  | a :: as, b :: bs =>
      if a.toNat < b.toNat then true
      else if b.toNat < a.toNat then false
      else lexLe as bs

/-- Python's `<=` on strings. -/
def strLe (a b : String) : Bool := lexLe a.data b.data

/-- The order `strLe` as a proposition (for use with `List.insertionSort`). -/
def strLeP (a b : String) : Prop := strLe a b = true

instance : DecidableRel strLeP :=
  fun a b => inferInstanceAs (Decidable (strLe a b = true))

/-- Python's `<=` on tuples of strings: componentwise lexicographic, the
order pandas uses when sorting composite group keys. -/
def keyLe : List String → List String → Bool
  | [], _ => true
  | _ :: _, [] => false
  | a :: as, b :: bs =>
      if strLe a b then (if strLe b a then keyLe as bs else true) else false

/-- The order `keyLe` as a proposition (for use with `List.insertionSort`). -/
def keyLeP (a b : List String) : Prop := keyLe a b = true

instance : DecidableRel keyLeP :=
  fun a b => inferInstanceAs (Decidable (keyLe a b = true))

theorem lexLe_refl : ∀ l : List Char, lexLe l l = true := by
  intro l
  induction l with
  | nil => rfl
  | cons a as ih => simp [lexLe, ih]

theorem lexLe_total : ∀ l₁ l₂ : List Char, lexLe l₁ l₂ = true ∨ lexLe l₂ l₁ = true := by
  intro l₁
  induction l₁ with
  | nil => intro l₂; left; rfl
  | cons a as ih =>
      intro l₂
      cases l₂ with
      | nil => right; rfl
      | cons b bs =>
          rcases Nat.lt_trichotomy a.toNat b.toNat with h | h | h
          · left; simp [lexLe, h]
          · have h1 : ¬ a.toNat < b.toNat := by omega
            have h2 : ¬ b.toNat < a.toNat := by omega
            rcases ih bs with h3 | h3
            · left; simp [lexLe, h1, h2, h3]
            · right; simp [lexLe, h1, h2, h3]
          · right; simp [lexLe, h]

theorem lexLe_trans :
    ∀ l₁ l₂ l₃ : List Char,
      lexLe l₁ l₂ = true → lexLe l₂ l₃ = true → lexLe l₁ l₃ = true := by
  intro l₁
  induction l₁ with
  | nil => intro l₂ l₃ _ _; rfl
  | cons a as ih =>
      intro l₂ l₃ h12 h23
      cases l₂ with
      | nil => simp [lexLe] at h12
      | cons b bs =>
          cases l₃ with
          | nil => simp [lexLe] at h23
          | cons c cs =>
              by_cases hab : a.toNat < b.toNat
              · by_cases hbc : b.toNat < c.toNat
                · have : a.toNat < c.toNat := by omega
                  simp [lexLe, this]
                · by_cases hcb : c.toNat < b.toNat
                  · simp [lexLe, hbc, hcb] at h23
                  · have : a.toNat < c.toNat := by omega
                    simp [lexLe, this]
              · by_cases hba : b.toNat < a.toNat
                · simp [lexLe, hab, hba] at h12
                · have hab' : a.toNat = b.toNat := by omega
                  by_cases hbc : b.toNat < c.toNat
                  · have : a.toNat < c.toNat := by omega
                    simp [lexLe, this]
                  · by_cases hcb : c.toNat < b.toNat
                    · simp [lexLe, hbc, hcb] at h23
                    · have h1 : ¬ a.toNat < c.toNat := by omega
                      have h2 : ¬ c.toNat < a.toNat := by omega
                      simp [lexLe, hab, hba] at h12
                      simp [lexLe, hbc, hcb] at h23
                      simp [lexLe, h1, h2]
                      exact ih bs cs h12 h23

theorem char_toNat_inj {a b : Char} (h : a.toNat = b.toNat) : a = b := by
  have := congrArg Char.ofNat h
  rwa [Char.ofNat_toNat, Char.ofNat_toNat] at this

theorem lexLe_antisymm :
    ∀ l₁ l₂ : List Char, lexLe l₁ l₂ = true → lexLe l₂ l₁ = true → l₁ = l₂ := by
  intro l₁
  induction l₁ with
  | nil =>
      intro l₂ _ h21
      cases l₂ with
      | nil => rfl
      | cons b bs => simp [lexLe] at h21
  | cons a as ih =>
      intro l₂ h12 h21
      cases l₂ with
      | nil => simp [lexLe] at h12
      | cons b bs =>
          by_cases hab : a.toNat < b.toNat
          · have : ¬ b.toNat < a.toNat := by omega
            simp [lexLe, hab, this] at h21
          · by_cases hba : b.toNat < a.toNat
            · simp [lexLe, hab, hba] at h12
            · have hab' : a = b := char_toNat_inj (by omega)
              simp [lexLe, hab, hba] at h12 h21
              rw [hab', ih bs h12 h21]

theorem strLe_total (a b : String) : strLe a b = true ∨ strLe b a = true :=
  lexLe_total a.data b.data

theorem strLe_trans {a b c : String} (h₁ : strLe a b = true) (h₂ : strLe b c = true) :
    strLe a c = true :=
  lexLe_trans a.data b.data c.data h₁ h₂

theorem strLe_antisymm {a b : String} (h₁ : strLe a b = true) (h₂ : strLe b a = true) :
    a = b :=
  String.ext (lexLe_antisymm a.data b.data h₁ h₂)

instance : IsTotal String strLeP := ⟨strLe_total⟩

instance : IsTrans String strLeP := ⟨fun _ _ _ => strLe_trans⟩

instance : IsAntisymm String strLeP := ⟨fun _ _ => strLe_antisymm⟩

theorem keyLe_total : ∀ k₁ k₂ : List String, keyLe k₁ k₂ = true ∨ keyLe k₂ k₁ = true := by
  intro k₁
  induction k₁ with
  | nil => intro k₂; left; rfl
  | cons a as ih =>
      intro k₂
      cases k₂ with
      | nil => right; rfl
      | cons b bs =>
          by_cases hab : strLe a b = true
          · by_cases hba : strLe b a = true
            · rcases ih bs with h | h
              · left; simp [keyLe, hab, hba, h]
              · right; simp [keyLe, hab, hba, h]
            · left; simp [keyLe, hab, hba]
          · have hba : strLe b a = true := (strLe_total a b).resolve_left hab
            have hab2 : strLe a b = false := eq_false_of_ne_true hab
            right
            simp [keyLe, hba, hab2]

theorem keyLe_trans :
    ∀ k₁ k₂ k₃ : List String,
      keyLe k₁ k₂ = true → keyLe k₂ k₃ = true → keyLe k₁ k₃ = true := by
  intro k₁
  induction k₁ with
  | nil => intro k₂ k₃ _ _; rfl
  | cons a as ih =>
      intro k₂ k₃ h12 h23
      cases k₂ with
      | nil => simp [keyLe] at h12
      | cons b bs =>
          cases k₃ with
          | nil => simp [keyLe] at h23
          | cons c cs =>
              by_cases hab : strLe a b = true
              · by_cases hbc : strLe b c = true
                · have hac : strLe a c = true := strLe_trans hab hbc
                  by_cases hba : strLe b a = true
                  · by_cases hcb : strLe c b = true
                    · have hca : strLe c a = true := strLe_trans hcb hba
                      simp [keyLe, hab, hba] at h12
                      simp [keyLe, hbc, hcb] at h23
                      simp [keyLe, hac, hca]
                      exact ih bs cs h12 h23
                    · have : ¬ strLe c a = true := fun hca =>
                        hcb (strLe_trans hca hab)
                      simp [keyLe, hac, this]
                  · have : ¬ strLe c a = true := fun hca =>
                      hba (strLe_trans hbc hca)
                    simp [keyLe, hac, this]
                · simp [keyLe, hbc] at h23
              · simp [keyLe, hab] at h12

theorem keyLe_antisymm :
    ∀ k₁ k₂ : List String, keyLe k₁ k₂ = true → keyLe k₂ k₁ = true → k₁ = k₂ := by
  intro k₁
  induction k₁ with
  | nil =>
      intro k₂ _ h21
      cases k₂ with
      | nil => rfl
      | cons b bs => simp [keyLe] at h21
  | cons a as ih =>
      intro k₂ h12 h21
      cases k₂ with
      | nil => simp [keyLe] at h12
      | cons b bs =>
          by_cases hab : strLe a b = true
          · by_cases hba : strLe b a = true
            · have hab' : a = b := strLe_antisymm hab hba
              simp [keyLe, hab, hba] at h12 h21
              rw [hab', ih bs h12 h21]
            · simp [keyLe, hab, hba] at h21
          · simp [keyLe, hab] at h12

instance : IsTotal (List String) keyLeP := ⟨keyLe_total⟩

instance : IsTrans (List String) keyLeP := ⟨keyLe_trans⟩

instance : IsAntisymm (List String) keyLeP := ⟨keyLe_antisymm⟩

/-! ## `load_data`: column drop, pivot detection, trimming, normalization -/

/-- The two optional columns silently dropped by `load_data`
(`cols_to_drop = ['SB attributes', 'WY attributes']`). -/
def colsToDrop : List String := ["SB attributes", "WY attributes"]

/-- Model of `df.drop(columns=cols_to_drop, errors='ignore')` on the header. -/
def dropHeader (header : List String) : List String :=
  header.filter (fun c => decide (c ∉ colsToDrop))

/-- Model of `df.drop(columns=cols_to_drop, errors='ignore')` on one row: keep the
cells whose column name survives. -/
def dropRow (header : List String) (r : Row) : Row :=
  ((header.zip r).filter (fun p => decide (p.1 ∉ colsToDrop))).map Prod.snd

/-- The per-row part of the `~` → `NOT` rewrite loop: the first `nIn` cells of
a row are the input-column cells (the columns before the pivot), and only
those are rewritten.  `astype(str)` is the identity in this model because
every cell is already a string. -/
def normRow : Nat → Row → Row
  | _, [] => []
  | 0, r => r
  | n + 1, c :: r => replaceTildeStr c :: normRow n r

/-- The `~` → `NOT` rewrite applied to every row of the table. -/
def normalizeRows (nIn : Nat) (rows : List Row) : List Row :=
  rows.map (normRow nIn)

/-- The table produced by a successful `load_data`. -/
structure LoadResult where
  header : List String
  input_cols : List String
  output_cols : List String
  rows : List Row
deriving DecidableEq, Repr

/-- Model of `load_data` (file reading aside): drop the two optional columns, locate
the pivot column `'WY event'` in the still-untrimmed header
(`df.columns.get_loc('WY event')` runs before `df.columns.str.strip()`),
split the header at the pivot, trim all column names, and rewrite `~` to
`NOT` in the input-column cells.  A missing pivot is the fatal
`CRITICAL ERROR` path and yields no table. -/
def load_data (header : List String) (rows : List Row) : Option LoadResult :=
  let hdr := dropHeader header
  let rws := rows.map (dropRow header)
  match hdr.findIdx? (fun c => c == "WY event") with
  | none => none
  | some idx =>
      some { header := hdr.map trimStr
             input_cols := (hdr.take idx).map trimStr
             output_cols := (hdr.drop idx).map trimStr
             rows := normalizeRows idx rws }

/-! ## Filter Engine (`main`) -/

/-- The output-column cells of a row: everything from the pivot position on
(`nIn` is the number of input columns). -/
def rowOutputs (nIn : Nat) (r : Row) : List String := r.drop nIn

/-- Primary filter: `'All'` keeps every row, any other selector keeps the
rows whose `'WY event'` cell (the first output column) equals it exactly. -/
def primaryFilter (nIn : Nat) (sel : String) (rows : List Row) : List Row :=
  if sel = "All" then rows
  else rows.filter (fun r => decide (r.getD nIn "" = sel))

/-- One row of the secondary-filter mask:
`all(attr in row[output_cols].values for attr in selected_attributes)`. -/
def passesSecondary (nIn : Nat) (sel : List String) (r : Row) : Bool :=
  sel.all (fun a => decide (a ∈ rowOutputs nIn r))

/-- Secondary filter: with no selected attributes the primary-filtered rows
pass through unchanged, otherwise the AND-combined membership mask is
applied. -/
def secondaryFilter (nIn : Nat) (sel : List String) (rows : List Row) : List Row :=
  if sel = [] then rows
  else rows.filter (passesSecondary nIn sel)

/-- Candidate secondary attributes: the distinct values raveled from the
output columns of the primary-filtered rows, with blank-after-strip values
and the primary selector's own value removed, presented in ascending order. -/
def candidateAttributes (nIn : Nat) (sel : String) (rows : List Row) : List String :=
  let filtered := primaryFilter nIn sel rows
  let vals := (filtered.map (rowOutputs nIn)).flatten
  List.insertionSort strLeP
    (vals.dedup.filter (fun a => decide (trimStr a ≠ "" ∧ a ≠ sel)))

/-! ## Rule Grouping Engine (`display_merged_rules`) -/

/-- A merged rule as displayed: the shared output tuple, the non-blank part
of it mapped back to column names, the per-input-column merged condition
values, and the number of member rows. -/
structure MergedRule where
  output_key : List String
  output_display : List (String × String)
  input_display : List (String × List String)
  member_count : Nat
deriving DecidableEq, Repr

/-- The group keys of `df.groupby(by=output_cols, dropna=False)`: the
distinct output tuples, in ascending tuple order (pandas sorts group keys). -/
def groupKeys (nIn : Nat) (rows : List Row) : List (List String) :=
  List.insertionSort keyLeP ((rows.map (rowOutputs nIn)).dedup)

/-- The member rows of one group: the rows whose output tuple equals the
group key. -/
def groupMembers (nIn : Nat) (rows : List Row) (k : List String) : List Row :=
  rows.filter (fun r => decide (rowOutputs nIn r = k))

/-- The per-value test of the input-condition cleanup:
`str(v).strip() != '' and str(v).strip() != 'NOT'`. -/
def cleanInputVal (v : String) : Bool :=
  decide (trimStr v ≠ "" ∧ trimStr v ≠ "NOT")

/-- Model of `sorted(cleaned_vals)` for the input column at position `i`: the distinct
values of that column across the member rows, cleaned, in ascending order. -/
def inputColValues (members : List Row) (i : Nat) : List String :=
  List.insertionSort strLeP
    (((members.map (fun r => r.getD i "")).dedup).filter cleanInputVal)

/-- The displayed input side of a merged rule: each input column with its
merged values, columns whose cleaned value set is empty omitted. -/
def inputDisplay (input_cols : List String) (members : List Row) :
    List (String × List String) :=
  (input_cols.enum.map (fun p => (p.2, inputColValues members p.1))).filter
    (fun q => decide (q.2 ≠ []))

/-- The displayed output side of a merged rule: the output columns paired
with the key components, blank-after-strip values omitted. -/
def outputDisplay (output_cols : List String) (k : List String) :
    List (String × String) :=
  (output_cols.zip k).filter (fun p => decide (trimStr p.2 ≠ ""))

/-- The merged rule displayed for one group key. -/
def mkMergedRule (input_cols output_cols : List String) (rows : List Row)
    (k : List String) : MergedRule :=
  let members := groupMembers input_cols.length rows k
  { output_key := k
    output_display := outputDisplay output_cols k
    input_display := inputDisplay input_cols members
    member_count := members.length }

/-- Model of `display_merged_rules` as data: the ordered sequence of merged rules
produced from the filtered rows. -/
def mergedRules (input_cols output_cols : List String) (rows : List Row) :
    List MergedRule :=
  (groupKeys input_cols.length rows).map (mkMergedRule input_cols output_cols rows)

/-- Two rows fall into the same merged-rule group. -/
def sameGroup (nIn : Nat) (rows : List Row) (r₁ r₂ : Row) : Prop :=
  ∃ k, k ∈ groupKeys nIn rows ∧
    r₁ ∈ groupMembers nIn rows k ∧ r₂ ∈ groupMembers nIn rows k

/-! ## `main`: the observable page states -/

/-- The distinguishable terminal states of `main`:
`fatalFileMissing` — the `FATAL ERROR` + `st.stop()` path for a missing file;
`fatalPivotMissing` — `load_data`'s `CRITICAL ERROR` message followed by
`main`'s "Data could not be loaded or the file is empty" warning and
`st.stop()`;
`stoppedEmptyLoad` — the same warning + `st.stop()` for a table that loaded
with zero rows;
`noMatches` — `display_merged_rules`'s "No rules found for the selected
criteria." warning;
`rules` — the merged rules actually rendered. -/
inductive AppState where
  | fatalFileMissing : AppState
  | fatalPivotMissing : AppState
  | stoppedEmptyLoad : AppState
  | noMatches : AppState
  | rules : List MergedRule → AppState
deriving DecidableEq, Repr

/-- The `main` pipeline: file check, load, `df.empty` check, primary filter,
secondary filter, display. -/
def mainState (fileExists : Bool) (header : List String) (rows : List Row)
    (sel : String) (attrs : List String) : AppState :=
  if fileExists = false then AppState.fatalFileMissing
  else
    match load_data header rows with
    | none => AppState.fatalPivotMissing
    | some res =>
        if res.rows = [] then AppState.stoppedEmptyLoad
        else
          let nIn := res.input_cols.length
          let final := secondaryFilter nIn attrs (primaryFilter nIn sel res.rows)
          if final = [] then AppState.noMatches
          else AppState.rules (mergedRules res.input_cols res.output_cols final)

/-! ## Helper lemmas -/

theorem tilde_not_mem_replaceTilde (l : List Char) : '~' ∉ replaceTilde l := by
  induction l with
  | nil => simp [replaceTilde]
  | cons c cs ih =>
      intro hmem
      by_cases h : c = '~'
      · subst h
        simp [replaceTilde] at hmem
        exact ih hmem
      · simp only [replaceTilde, if_neg h, List.mem_cons] at hmem
        rcases hmem with h1 | h1
        · exact h h1.symm
        · exact ih h1

theorem replaceTilde_eq_self (l : List Char) (h : '~' ∉ l) : replaceTilde l = l := by
  induction l with
  | nil => rfl
  | cons c cs ih =>
      rw [List.mem_cons] at h
      push_neg at h
      rw [replaceTilde, if_neg (fun he => h.1 he.symm), ih h.2]

theorem replaceTildeStr_idem (s : String) :
    replaceTildeStr (replaceTildeStr s) = replaceTildeStr s := by
  unfold replaceTildeStr
  exact congrArg String.mk (replaceTilde_eq_self _ (tilde_not_mem_replaceTilde s.data))

theorem normRow_idem : ∀ (n : Nat) (r : Row), normRow n (normRow n r) = normRow n r := by
  intro n
  induction n with
  | zero =>
      intro r
      cases r with
      | nil => rfl
      | cons c cs => rfl
  | succ n ih =>
      intro r
      cases r with
      | nil => rfl
      | cons c cs => simp [normRow, replaceTildeStr_idem, ih]

theorem findIdx?_eq_none_of_all {α : Type} (p : α → Bool) :
    ∀ (l : List α) (i : Nat), (∀ x ∈ l, p x = false) → l.findIdx? p i = none := by
  intro l
  induction l with
  | nil => intro i _; rfl
  | cons a l ih =>
      intro i h
      rw [List.findIdx?_cons, h a (List.mem_cons_self a l)]
      exact ih (i + 1) (fun x hx => h x (List.mem_cons_of_mem a hx))

theorem passesSecondary_iff (nIn : Nat) (sel : List String) (r : Row) :
    passesSecondary nIn sel r = true ↔ ∀ a ∈ sel, a ∈ rowOutputs nIn r := by
  unfold passesSecondary
  rw [List.all_eq_true]
  constructor
  · intro h a ha
    exact of_decide_eq_true (h a ha)
  · intro h a ha
    exact decide_eq_true (h a ha)

/-! ## The claims -/

/-- C7: the Normalizer is idempotent — applying the string coercion plus the
`~` → `NOT` rewrite of the input-column cells to an already-normalized table
yields the same table, with no double rewriting of the `NOT` token. -/
theorem normalizer_idempotent (nIn : Nat) (rows : List Row) :
    normalizeRows nIn (normalizeRows nIn rows) = normalizeRows nIn rows := by
  unfold normalizeRows
  rw [List.map_map]
  exact List.map_congr_left (fun r _ => normRow_idem nIn r)

/-- C10: pivot detection uses the untrimmed header — when some column name
equals `'WY event'` only after stripping surrounding whitespace and no column
matches untrimmed, `load_data` fails with the fatal pivot-missing error and
returns no table, even though column names are trimmed later in the same
load step. -/
theorem pivot_detection_untrimmed (header : List String) (rows : List Row)
    (htrim : ∃ c ∈ header, trimStr c = "WY event" ∧ c ≠ "WY event")
    (hexact : ∀ c ∈ header, c ≠ "WY event") :
    load_data header rows = none := by
  have hnone : (dropHeader header).findIdx? (fun c => c == "WY event") = none := by
    apply findIdx?_eq_none_of_all
    intro x hx
    have hxh : x ∈ header := List.mem_of_mem_filter hx
    simpa using hexact x hxh
  unfold load_data
  simp only [hnone]

/-- C10 witness: a header whose only column is `' WY event'` (leading blank)
is rejected. -/
theorem pivot_detection_untrimmed_witness :
    load_data [" WY event"] [["x"]] = none :=
  pivot_detection_untrimmed [" WY event"] [["x"]]
    ⟨" WY event", by decide, by decide, by decide⟩ (by decide)

/-- C9: under the `'All'` primary selection no primary filtering happens,
yet the candidate secondary-attribute list still excludes any output value
equal to the literal string `"All"`. -/
theorem all_sentinel_excluded (nIn : Nat) (rows : List Row)
    (h : ∃ r ∈ rows, "All" ∈ rowOutputs nIn r) :
    primaryFilter nIn "All" rows = rows ∧
    "All" ∉ candidateAttributes nIn "All" rows := by
  constructor
  · simp [primaryFilter]
  · intro hmem
    unfold candidateAttributes at hmem
    rw [List.mem_insertionSort, List.mem_filter] at hmem
    exact (of_decide_eq_true hmem.2).2 rfl

/-- C9 witness: the table `[["x", "All"]]` with one input column has the
output value `"All"`, which is not offered as a secondary attribute. -/
theorem all_sentinel_excluded_witness :
    primaryFilter 1 "All" [["x", "All"]] = [["x", "All"]] ∧
    "All" ∉ candidateAttributes 1 "All" [["x", "All"]] :=
  all_sentinel_excluded 1 [["x", "All"]] ⟨["x", "All"], by decide, by decide⟩

/-- C8: secondary filtering is monotone — it never yields more rows than the
primary-filtered input, and adding one more attribute to the selection never
yields more rows than the selection alone. -/
theorem secondary_filter_monotone (nIn : Nat) (sel : List String) (a : String)
    (rows : List Row) :
    (secondaryFilter nIn sel rows).length ≤ rows.length ∧
    (secondaryFilter nIn (a :: sel) rows).length ≤
      (secondaryFilter nIn sel rows).length := by
  constructor
  · unfold secondaryFilter
    by_cases h : sel = []
    · simp [h]
    · simp only [h, if_neg h]
      exact List.length_filter_le _ _
  · unfold secondaryFilter
    by_cases h : sel = []
    · subst h
      simp only [if_pos rfl, if_neg (List.cons_ne_nil a [])]
      exact List.length_filter_le _ _
    · simp only [if_neg h, if_neg (List.cons_ne_nil a sel)]
      apply List.Sublist.length_le
      apply List.monotone_filter_right
      intro r hr
      unfold passesSecondary at hr ⊢
      rw [List.all_cons, Bool.and_eq_true] at hr
      exact hr.2

/-- C2: for a non-empty selection, the secondary filter keeps a row iff each
selected attribute string equals the value of at least one output column of
that row (OR across columns per attribute, AND across attributes); in
particular two attributes that never co-occur in a single row's output
columns yield zero rows. -/
theorem secondary_filter_semantics (nIn : Nat) (rows : List Row) :
    (∀ sel : List String, sel ≠ [] → ∀ r : Row,
        (r ∈ secondaryFilter nIn sel rows ↔
          r ∈ rows ∧ ∀ a ∈ sel, ∃ v ∈ rowOutputs nIn r, v = a)) ∧
    (∀ a b : String,
        (∀ r ∈ rows, ¬ (a ∈ rowOutputs nIn r ∧ b ∈ rowOutputs nIn r)) →
        secondaryFilter nIn [a, b] rows = []) := by
  constructor
  · intro sel hsel r
    unfold secondaryFilter
    rw [if_neg hsel, List.mem_filter, passesSecondary_iff]
    have hexv : ∀ x : String, (∃ v ∈ rowOutputs nIn r, v = x) ↔ x ∈ rowOutputs nIn r := by
      intro x
      constructor
      · rintro ⟨v, hv, rfl⟩
        exact hv
      · intro hx
        exact ⟨x, hx, rfl⟩
    constructor
    · rintro ⟨h1, h2⟩
      exact ⟨h1, fun x hx => (hexv x).mpr (h2 x hx)⟩
    · rintro ⟨h1, h2⟩
      exact ⟨h1, fun x hx => (hexv x).mp (h2 x hx)⟩
  · intro a b hab
    unfold secondaryFilter
    rw [if_neg (List.cons_ne_nil a [b]), List.filter_eq_nil_iff]
    intro r hr hp
    rw [passesSecondary_iff] at hp
    exact hab r hr ⟨hp a (by simp), hp b (by simp)⟩

/-- C2 witness: on rows `[["a","Y"], ["b","Z"]]` with one input column, the
membership characterization holds for the selection `["Y"]`, and the
never-co-occurring pair `"Y"`, `"Z"` filters every row out. -/
theorem secondary_filter_semantics_witness :
    (["a", "Y"] ∈ secondaryFilter 1 ["Y"] [["a", "Y"], ["b", "Z"]] ↔
      ["a", "Y"] ∈ ([["a", "Y"], ["b", "Z"]] : List Row) ∧
        ∀ x ∈ ["Y"], ∃ v ∈ rowOutputs 1 ["a", "Y"], v = x) ∧
    secondaryFilter 1 ["Y", "Z"] [["a", "Y"], ["b", "Z"]] = [] :=
  ⟨(secondary_filter_semantics 1 [["a", "Y"], ["b", "Z"]]).1 ["Y"]
      (by decide) ["a", "Y"],
   (secondary_filter_semantics 1 [["a", "Y"], ["b", "Z"]]).2 "Y" "Z" (by decide)⟩

theorem sum_countP_of_partition {α β : Type} [DecidableEq β] (f : α → β) :
    ∀ (keys : List β) (l : List α), keys.Nodup → (∀ x ∈ l, f x ∈ keys) →
      (keys.map (fun k => l.countP (fun x => decide (f x = k)))).sum = l.length := by
  intro keys
  induction keys with
  | nil =>
      intro l _ hall
      cases l with
      | nil => rfl
      | cons a l => exact absurd (hall a (List.mem_cons_self a l)) (List.not_mem_nil _)
  | cons k ks ih =>
      intro l hnd hall
      have hnd2 := List.nodup_cons.mp hnd
      rw [List.map_cons, List.sum_cons]
      have hrest : ∀ k' ∈ ks,
          l.countP (fun x => decide (f x = k')) =
            (l.filter (fun x => decide ¬ decide (f x = k) = true)).countP
              (fun x => decide (f x = k')) := by
        intro k' hk'
        rw [List.countP_filter]
        apply List.countP_congr
        intro x _
        constructor
        · intro hx
          have hfx : f x = k' := of_decide_eq_true hx
          have hkk : ¬ k' = k := fun he => hnd2.1 (he ▸ hk')
          simp [hfx, hkk]
        · intro hx
          rw [Bool.and_eq_true] at hx
          exact hx.1
      rw [List.map_congr_left hrest]
      have hsub : ∀ x ∈ l.filter (fun x => decide ¬ decide (f x = k) = true), f x ∈ ks := by
        intro x hx
        have hxl := List.mem_of_mem_filter hx
        have hpx := (List.mem_filter.mp hx).2
        have hne : ¬ f x = k := by
          have := of_decide_eq_true hpx
          intro he
          exact this (decide_eq_true he)
        rcases List.mem_cons.mp (hall x hxl) with he | hm
        · exact absurd he hne
        · exact hm
      rw [ih (l.filter (fun x => decide ¬ decide (f x = k) = true)) hnd2.2 hsub]
      rw [← List.countP_eq_length_filter]
      exact (List.length_eq_countP_add_countP (fun x => decide (f x = k)) l).symm

/-- C1: the Rule Grouping Engine puts two rows of the filtered table in the
same merged-rule group iff their output tuples — the values of every output
column, in output-column order — are equal by exact string equality; the
full output tuple is the composite group key, and empty strings are valid
key components. -/
theorem grouping_same_group_iff (nIn : Nat) (rows : List Row) (r₁ r₂ : Row)
    (h₁ : r₁ ∈ rows) (h₂ : r₂ ∈ rows) :
    sameGroup nIn rows r₁ r₂ ↔ rowOutputs nIn r₁ = rowOutputs nIn r₂ := by
  constructor
  · rintro ⟨k, -, hm₁, hm₂⟩
    unfold groupMembers at hm₁ hm₂
    have e₁ := of_decide_eq_true (List.mem_filter.mp hm₁).2
    have e₂ := of_decide_eq_true (List.mem_filter.mp hm₂).2
    rw [e₁, e₂]
  · intro h
    refine ⟨rowOutputs nIn r₁, ?_, ?_, ?_⟩
    · unfold groupKeys
      rw [List.mem_insertionSort, List.mem_dedup]
      exact List.mem_map_of_mem _ h₁
    · unfold groupMembers
      exact List.mem_filter.mpr ⟨h₁, decide_eq_true rfl⟩
    · unfold groupMembers
      exact List.mem_filter.mpr ⟨h₂, decide_eq_true h.symm⟩

/-- C1 witness: two rows with the same single output value, and two rows
that are both empty-string in every output column, share a group. -/
theorem grouping_same_group_iff_witness :
    (sameGroup 1 [["a", "Y"], ["b", "Y"]] ["a", "Y"] ["b", "Y"] ↔
      rowOutputs 1 ["a", "Y"] = rowOutputs 1 ["b", "Y"]) ∧
    (sameGroup 1 [["a", ""], ["b", ""]] ["a", ""] ["b", ""] ↔
      rowOutputs 1 ["a", ""] = rowOutputs 1 ["b", ""]) :=
  ⟨grouping_same_group_iff 1 [["a", "Y"], ["b", "Y"]] ["a", "Y"] ["b", "Y"]
      (by decide) (by decide),
   grouping_same_group_iff 1 [["a", ""], ["b", ""]] ["a", ""] ["b", ""]
      (by decide) (by decide)⟩

/-- C4: grouping is a partition — every filtered row belongs to exactly one
merged-rule group, and the member counts of all groups sum to the filtered
row count. -/
theorem grouping_partition (input_cols output_cols : List String) (rows : List Row) :
    (∀ r ∈ rows, ∃! k, k ∈ groupKeys input_cols.length rows ∧
        r ∈ groupMembers input_cols.length rows k) ∧
    (List.map (fun m => m.member_count)
        (mergedRules input_cols output_cols rows)).sum = rows.length := by
  constructor
  · intro r hr
    refine ⟨rowOutputs input_cols.length r, ⟨?_, ?_⟩, ?_⟩
    · unfold groupKeys
      rw [List.mem_insertionSort, List.mem_dedup]
      exact List.mem_map_of_mem _ hr
    · unfold groupMembers
      exact List.mem_filter.mpr ⟨hr, decide_eq_true rfl⟩
    · rintro k ⟨-, hk⟩
      unfold groupMembers at hk
      exact (of_decide_eq_true (List.mem_filter.mp hk).2).symm
  · have h1 : List.map (fun m => m.member_count)
          (mergedRules input_cols output_cols rows)
        = List.map (fun k => (groupMembers input_cols.length rows k).length)
            (groupKeys input_cols.length rows) := by
      unfold mergedRules
      rw [List.map_map]
      rfl
    have h2 : List.map (fun k => (groupMembers input_cols.length rows k).length)
          (groupKeys input_cols.length rows)
        = List.map (fun k => rows.countP
              (fun r => decide (rowOutputs input_cols.length r = k)))
            (groupKeys input_cols.length rows) :=
      List.map_congr_left (fun k _ => by
        unfold groupMembers
        rw [← List.countP_eq_length_filter])
    rw [h1, h2]
    apply sum_countP_of_partition
    · unfold groupKeys
      exact (List.perm_insertionSort _ _).symm.nodup (List.nodup_dedup _)
    · intro r hr
      unfold groupKeys
      rw [List.mem_insertionSort, List.mem_dedup]
      exact List.mem_map_of_mem _ hr

/-- C4 witness: on two rows sharing one output tuple and a third with a
different tuple, each row is in exactly one group and the member counts sum
to three. -/
theorem grouping_partition_witness :
    (∀ r ∈ ([["a", "Y"], ["b", "Y"], ["c", "Z"]] : List Row),
        ∃! k, k ∈ groupKeys 1 [["a", "Y"], ["b", "Y"], ["c", "Z"]] ∧
          r ∈ groupMembers 1 [["a", "Y"], ["b", "Y"], ["c", "Z"]] k) ∧
    (List.map (fun m => m.member_count)
        (mergedRules ["A"] ["O"] [["a", "Y"], ["b", "Y"], ["c", "Z"]])).sum = 3 :=
  grouping_partition ["A"] ["O"] [["a", "Y"], ["b", "Y"], ["c", "Z"]]

theorem inputColValues_perm_eq {m₁ m₂ : List Row} (h : m₁.Perm m₂) (i : Nat) :
    inputColValues m₁ i = inputColValues m₂ i := by
  unfold inputColValues
  apply List.eq_of_perm_of_sorted (r := strLeP)
  · exact (List.perm_insertionSort _ _).trans
      ((List.Perm.filter _ ((h.map _).dedup)).trans
        (List.perm_insertionSort _ _).symm)
  · exact List.sorted_insertionSort _ _
  · exact List.sorted_insertionSort _ _

theorem inputDisplay_perm_eq (ic : List String) {m₁ m₂ : List Row}
    (h : m₁.Perm m₂) : inputDisplay ic m₁ = inputDisplay ic m₂ := by
  unfold inputDisplay
  have he : ∀ p ∈ ic.enum, ((p.2 : String), inputColValues m₁ p.1)
      = (p.2, inputColValues m₂ p.1) :=
    fun p _ => by rw [inputColValues_perm_eq h]
  rw [List.map_congr_left he]

theorem groupKeys_perm_eq (nIn : Nat) {rows₁ rows₂ : List Row}
    (h : rows₁.Perm rows₂) : groupKeys nIn rows₁ = groupKeys nIn rows₂ := by
  unfold groupKeys
  apply List.eq_of_perm_of_sorted (r := keyLeP)
  · exact (List.perm_insertionSort _ _).trans
      (((h.map _).dedup).trans (List.perm_insertionSort _ _).symm)
  · exact List.sorted_insertionSort _ _
  · exact List.sorted_insertionSort _ _

theorem mkMergedRule_perm_eq (ic oc : List String) {rows₁ rows₂ : List Row}
    (h : rows₁.Perm rows₂) (k : List String) :
    mkMergedRule ic oc rows₁ k = mkMergedRule ic oc rows₂ k := by
  have hm : (groupMembers ic.length rows₁ k).Perm (groupMembers ic.length rows₂ k) :=
    List.Perm.filter _ h
  simp only [mkMergedRule]
  rw [inputDisplay_perm_eq ic hm, hm.length_eq]

/-- C6: merged rules are emitted in ascending order of their output-key
tuple (lexicographic over the string components), and the emitted sequence
is deterministic and independent of the arrival order of rows. -/
theorem grouping_ordered_deterministic (input_cols output_cols : List String)
    (rows rows' : List Row) (hperm : rows.Perm rows') :
    List.Sorted keyLeP
      ((mergedRules input_cols output_cols rows).map (fun m => m.output_key)) ∧
    mergedRules input_cols output_cols rows
      = mergedRules input_cols output_cols rows' := by
  constructor
  · have h1 : (mergedRules input_cols output_cols rows).map (fun m => m.output_key)
        = groupKeys input_cols.length rows := by
      unfold mergedRules
      rw [List.map_map]
      have he : ∀ k ∈ groupKeys input_cols.length rows,
          ((fun m => m.output_key) ∘ mkMergedRule input_cols output_cols rows) k
            = id k := fun k _ => rfl
      rw [List.map_congr_left he, List.map_id]
    rw [h1]
    unfold groupKeys
    exact List.sorted_insertionSort _ _
  · unfold mergedRules
    rw [groupKeys_perm_eq input_cols.length hperm]
    exact List.map_congr_left
      (fun k _ => mkMergedRule_perm_eq input_cols output_cols hperm k)

/-- C6 witness: for two rows given in either order, the merged-rule sequence
is key-sorted and identical. -/
theorem grouping_ordered_deterministic_witness :
    List.Sorted keyLeP
      ((mergedRules ["A"] ["O"] [["a", "Y"], ["b", "Z"]]).map (fun m => m.output_key)) ∧
    mergedRules ["A"] ["O"] [["a", "Y"], ["b", "Z"]]
      = mergedRules ["A"] ["O"] [["b", "Z"], ["a", "Y"]] :=
  grouping_ordered_deterministic ["A"] ["O"] [["a", "Y"], ["b", "Z"]]
    [["b", "Z"], ["a", "Y"]] (List.Perm.swap ["b", "Z"] ["a", "Y"] [])

/-- C3 counterexample: on the rows `[Event:"X", A:"~p", B:"", Out1:"Y"]` and
`[Event:"X", A:"q", B:"", Out1:"Y"]` with pivot `Out1`, the pipeline does
not produce a single rule with `output_display = [(Out1, Y)]` and
`input_display = [(A, [NOT p, q])]`: the `Event` column also contributes
`["X"]` to `input_display`, and `'~p'.replace('~', 'NOT')` gives `"NOTp"`
with no space, not `"NOT p"`. -/
theorem merged_example_counterexample :
    ¬ ((mergedRules ["Event", "A", "B"] ["Out1"]
          (normalizeRows 3 [["X", "~p", "", "Y"], ["X", "q", "", "Y"]])).map
            (fun m => (m.output_display, m.input_display))
        = [([("Out1", "Y")], [("A", ["NOT p", "q"])])]) := by decide

/-- C3 amended: the pipeline on those two rows produces exactly one merged
rule with `output_display = [(Out1, Y)]` and
`input_display = [(Event, [X]), (A, [NOTp, q])]` (values sorted; the rewrite
of `~` yields `NOTp` with no space), with column `B` absent. -/
theorem merged_example_amended :
    mergedRules ["Event", "A", "B"] ["Out1"]
        (normalizeRows 3 [["X", "~p", "", "Y"], ["X", "q", "", "Y"]])
      = [{ output_key := ["Y"], output_display := [("Out1", "Y")],
           input_display := [("Event", ["X"]), ("A", ["NOTp", "q"])],
           member_count := 2 }] := by decide

/-- C5 counterexample: a table that loads successfully but has zero rows is
not presented as the "no matches" state — `main` takes the
"Data could not be loaded or the file is empty" warning-and-stop path, the
same branch that swallows a failed load. -/
theorem empty_table_counterexample :
    mainState true ["WY event"] [] "All" [] = AppState.stoppedEmptyLoad ∧
    AppState.stoppedEmptyLoad ≠ AppState.noMatches := by decide

/-- C5 amended: a filter combination matching zero rows on a successfully
loaded non-empty table renders the explicit "no rules found" state, which is
distinct from both fatal states and from the empty-load stop state, and no
fallback table is substituted (no rules state is rendered); but a table that
loads with zero rows takes the same warning-and-stop branch as a failed
load, not the "no matches" state. -/
theorem empty_states_amended (header : List String) (rows : List Row)
    (sel : String) (attrs : List String) (res : LoadResult)
    (hload : load_data header rows = some res) :
    (res.rows = [] → mainState true header rows sel attrs = AppState.stoppedEmptyLoad) ∧
    (res.rows ≠ [] →
      secondaryFilter res.input_cols.length attrs
          (primaryFilter res.input_cols.length sel res.rows) = [] →
      mainState true header rows sel attrs = AppState.noMatches) ∧
    AppState.noMatches ≠ AppState.fatalFileMissing ∧
    AppState.noMatches ≠ AppState.fatalPivotMissing ∧
    AppState.noMatches ≠ AppState.stoppedEmptyLoad ∧
    (∀ rs, AppState.noMatches ≠ AppState.rules rs) := by
  refine ⟨?_, ?_, by decide, by decide, by decide, ?_⟩
  · intro hnil
    unfold mainState
    simp [hload, hnil]
  · intro hne hempty
    unfold mainState
    simp [hload, hne, hempty]
  · intro rs h
    exact AppState.noConfusion h

/-- C5 amended witness: a one-column table with one row and a secondary
attribute matching nothing lands in the "no matches" state. -/
theorem empty_states_amended_witness :
    mainState true ["WY event"] [["E1"]] "All" ["nope"] = AppState.noMatches :=
  (empty_states_amended ["WY event"] [["E1"]] "All" ["nope"]
      ⟨["WY event"], [], ["WY event"], [["E1"]]⟩ (by decide)).2.1
    (by decide) (by decide)

end Dashboard
